import Mathlib

/-!
# Verification of the Veritas wallet core

A shallow embedding of the key-management and transaction-signing core of the
Veritas repository (the crypto utility module): Base58 encoding/decoding,
SHA-256 based double digests, WIF construction and validation, address
derivation, and HMAC-SHA-256 transaction signing.  Byte sequences
(`Uint8Array` in the source) are `List Nat` with entries below 256; strings
are `List Char`.  The Web-Crypto digest and HMAC primitives are given by a
full executable SHA-256 over byte lists, so every derivation can be evaluated
on concrete inputs inside the kernel.
-/

set_option maxRecDepth 100000

namespace Veritas

/-! ## 32-bit word arithmetic for SHA-256 -/

/-- The modulus `2 ^ 32` for 32-bit word arithmetic. -/
def M32 : Nat := 4294967296

/-- Addition modulo `2 ^ 32`. -/
def add32 (a b : Nat) : Nat := (a + b) % M32

/-- Right rotation of a 32-bit word by `k` places. -/
def rotr32 (k n : Nat) : Nat := ((n >>> k) ||| (n <<< (32 - k))) % M32

/-- Three-way exclusive or. -/
def xor3 (a b c : Nat) : Nat := (a ^^^ b) ^^^ c

/-- SHA-256 big sigma-0. -/
def bSig0 (x : Nat) : Nat := xor3 (rotr32 2 x) (rotr32 13 x) (rotr32 22 x)

/-- SHA-256 big sigma-1. -/
def bSig1 (x : Nat) : Nat := xor3 (rotr32 6 x) (rotr32 11 x) (rotr32 25 x)

/-- SHA-256 small sigma-0. -/
def sSig0 (x : Nat) : Nat := xor3 (rotr32 7 x) (rotr32 18 x) (x >>> 3)

/-- SHA-256 small sigma-1. -/
def sSig1 (x : Nat) : Nat := xor3 (rotr32 17 x) (rotr32 19 x) (x >>> 10)

/-- SHA-256 choice function (the complement is taken within 32 bits). -/
def chFn (e f g : Nat) : Nat := (e &&& f) ^^^ ((e ^^^ 4294967295) &&& g)

/-- SHA-256 majority function. -/
def majFn (a b c : Nat) : Nat := ((a &&& b) ^^^ (a &&& c)) ^^^ (b &&& c)

/-- Big-endian byte rendering of `x` on exactly `k` bytes. -/
def beBytes : Nat → Nat → List Nat
  | 0, _ => []
  | k + 1, x => beBytes k (x / 256) ++ [x % 256]

/-! ## SHA-256 -/

/-- The eight SHA-256 chaining words. -/
structure Hash8 where
  a : Nat
  b : Nat
  c : Nat
  d : Nat
  e : Nat
  f : Nat
  g : Nat
  h : Nat
  deriving DecidableEq

/-- The SHA-256 initial chaining value (FIPS 180-4 section 5.3.3, written in
decimal). -/
def sha256Init : Hash8 :=
  ⟨1779033703, 3144134277, 1013904242, 2773480762,
   1359893119, 2600822924, 528734635, 1541459225⟩

/-- The 64 SHA-256 round constants (FIPS 180-4 section 4.2.2, written in
decimal). -/
def sha256K : List Nat :=
  [1116352408, 1899447441, 3049323471, 3921009573, 961987163,
   1508970993, 2453635748, 2870763221, 3624381080, 310598401,
   607225278, 1426881987, 1925078388, 2162078206, 2614888103,
   3248222580, 3835390401, 4022224774, 264347078, 604807628,
   770255983, 1249150122, 1555081692, 1996064986, 2554220882,
   2821834349, 2952996808, 3210313671, 3336571891, 3584528711,
   113926993, 338241895, 666307205, 773529912, 1294757372,
   1396182291, 1695183700, 1986661051, 2177026350, 2456956037,
   2730485921, 2820302411, 3259730800, 3345764771, 3516065817,
   3600352804, 4094571909, 275423344, 430227734, 506948616,
   659060556, 883997877, 958139571, 1322822218, 1537002063,
   1747873779, 1955562222, 2024104815, 2227730452, 2361852424,
   2428436474, 2756734187, 3204031479, 3329325298]

/-- One SHA-256 compression round; `kw` is the round constant already added
to the schedule word. -/
def sha256Round (kw : Nat) (st : Hash8) : Hash8 :=
  let t1 := add32 st.h (add32 (bSig1 st.e) (add32 (chFn st.e st.f st.g) kw))
  let t2 := add32 (bSig0 st.a) (majFn st.a st.b st.c)
  ⟨add32 t1 t2, st.a, st.b, st.c, add32 st.d t1, st.e, st.f, st.g⟩

/-- Iterate the round function over the combined constant/schedule words. -/
def sha256Rounds : List Nat → Hash8 → Hash8
  | [], st => st
  | kw :: rest, st => sha256Rounds rest (sha256Round kw st)

/-- Next message-schedule word, from the reversed list of previous words. -/
def schedNext (acc : List Nat) : Nat :=
  add32 (add32 (acc.getD 15 0) (sSig0 (acc.getD 14 0)))
    (add32 (acc.getD 6 0) (sSig1 (acc.getD 1 0)))

/-- Extend the reversed message schedule by `k` words, then un-reverse. -/
def schedExtend : Nat → List Nat → List Nat
  | 0, acc => acc.reverse
  | k + 1, acc => schedExtend k (schedNext acc :: acc)

/-- The 64-word SHA-256 message schedule of a 16-word block. -/
def sha256Schedule (block : List Nat) : List Nat :=
  schedExtend 48 block.reverse

/-- SHA-256 compression of one 16-word block into the chaining state. -/
def sha256Compress (st : Hash8) (block : List Nat) : Hash8 :=
  let r := sha256Rounds (List.zipWith add32 sha256K (sha256Schedule block)) st
  ⟨add32 st.a r.a, add32 st.b r.b, add32 st.c r.c, add32 st.d r.d,
   add32 st.e r.e, add32 st.f r.f, add32 st.g r.g, add32 st.h r.h⟩

/-- SHA-256 padding: append `0x80`, zeros to 56 mod 64, and the 64-bit
big-endian bit length. -/
def sha256Pad (msg : List Nat) : List Nat :=
  msg ++ 128 :: (List.replicate ((64 - (msg.length + 9) % 64) % 64) 0
    ++ beBytes 8 (8 * msg.length))

/-- Group bytes into big-endian 32-bit words. -/
def bytesToWords : List Nat → List Nat
  | a :: b :: c :: d :: rest =>
      (((a * 256 + b) * 256 + c) * 256 + d) :: bytesToWords rest
  | _ => []

/-- Group a word list into 16-word blocks. -/
def words16 : List Nat → List (List Nat)
  | w0 :: w1 :: w2 :: w3 :: w4 :: w5 :: w6 :: w7 ::
    w8 :: w9 :: w10 :: w11 :: w12 :: w13 :: w14 :: w15 :: rest =>
      [w0, w1, w2, w3, w4, w5, w6, w7,
       w8, w9, w10, w11, w12, w13, w14, w15] :: words16 rest
  | _ => []

/-- Serialize the chaining state as 32 big-endian bytes. -/
def hash8Bytes (st : Hash8) : List Nat :=
  beBytes 4 st.a ++ beBytes 4 st.b ++ beBytes 4 st.c ++ beBytes 4 st.d ++
  beBytes 4 st.e ++ beBytes 4 st.f ++ beBytes 4 st.g ++ beBytes 4 st.h

/-- SHA-256 of a byte list, as 32 bytes.  This is the `digest` primitive the
source reaches through `crypto.subtle.digest` with algorithm SHA-256. -/
def sha256 (msg : List Nat) : List Nat :=
  hash8Bytes ((words16 (bytesToWords (sha256Pad msg))).foldl sha256Compress sha256Init)

/-- Double SHA-256, the source's `doubleSha256`. -/
def doubleSha256 (data : List Nat) : List Nat := sha256 (sha256 data)

/-! ## HMAC-SHA-256

The Web Crypto `importKey`/`sign` pair with `{ name: HMAC, hash: SHA-256 }`
is RFC 2104 HMAC over SHA-256 with a 64-byte block size. -/

/-- HMAC-SHA-256 of `msg` under `key`. -/
def hmacSha256 (key msg : List Nat) : List Nat :=
  let k0 := if 64 < key.length then sha256 key else key
  let kp := k0 ++ List.replicate (64 - k0.length) 0
  sha256 ((kp.map (fun b => b ^^^ 92)) ++ sha256 ((kp.map (fun b => b ^^^ 54)) ++ msg))

/-! ## Text rendering helpers

These model the JavaScript string operations the source uses:
`toString(16)` / `toString()` on numbers, `padStart`, template literals, and
the byte-to-hex mapping `b.toString(16).padStart(2, 0)`. -/

/-- Lowercase hexadecimal digit character for `n < 16`. -/
def hexDigit (n : Nat) : Char := if n < 10 then Char.ofNat (48 + n) else Char.ofNat (87 + n)

/-- Two lowercase hex characters for a byte, zero-padded. -/
def byteToHex (b : Nat) : List Char := [hexDigit (b / 16), hexDigit (b % 16)]

/-- Lowercase hex string of a byte list (each byte zero-padded to 2 chars). -/
def bytesToHex (bs : List Nat) : List Char :=
  bs.foldr (fun b acc => byteToHex b ++ acc) []

/-- Minimal big-endian hex digits of `x`, empty at 0; `fuel` bounds the
recursion and is sufficient whenever `x ≤ fuel`. -/
def natHexAux : Nat → Nat → List Char
  | 0, _ => []
  | fuel + 1, x => if x = 0 then [] else natHexAux fuel (x / 16) ++ [hexDigit (x % 16)]

/-- JavaScript `n.toString(16)` for a natural number. -/
def natToHexStr (n : Nat) : List Char := if n = 0 then ['0'] else natHexAux n n

/-- JavaScript `n.toString(16)` for an integer (minus sign, then digits). -/
def intToHexStr : Int → List Char
  | Int.ofNat n => natToHexStr n
  | Int.negSucc m => '-' :: natToHexStr (m + 1)

/-- JavaScript `s.padStart(k, 0)`: left-pad with `0` up to length `k`. -/
def padStartZeros (k : Nat) (s : List Char) : List Char :=
  List.replicate (k - s.length) '0' ++ s

/-- Decimal digit character for `n < 10`. -/
def decDigit (n : Nat) : Char := Char.ofNat (48 + n)

/-- Minimal decimal digits of `x`, empty at 0, with sufficient `fuel`. -/
def natDecAux : Nat → Nat → List Char
  | 0, _ => []
  | fuel + 1, x => if x = 0 then [] else natDecAux fuel (x / 10) ++ [decDigit (x % 10)]

/-- JavaScript `n.toString()` for a natural number. -/
def natToDecStr (n : Nat) : List Char := if n = 0 then ['0'] else natDecAux n n

/-- JavaScript `n.toString()` for an integer. -/
def intToDecStr : Int → List Char
  | Int.ofNat n => natToDecStr n
  | Int.negSucc m => '-' :: natToDecStr (m + 1)

/-- Rendering of the rational `amount` inside the template literal
interpolation of the signing payload.  It stands in for JavaScript
number-to-string formatting; no claim below depends on its exact output,
only on the payload being built from it. -/
def ratToString (q : ℚ) : List Char :=
  if q.den = 1 then intToDecStr q.num
  else intToDecStr q.num ++ '/' :: natToDecStr q.den

/-- UTF-8 bytes of one character (`TextEncoder` on a single code point). -/
def utf8Char (c : Char) : List Nat :=
  let n := c.toNat
  if n < 128 then [n]
  else if n < 2048 then [192 ||| (n >>> 6), 128 ||| (n &&& 63)]
  else if n < 65536 then
    [224 ||| (n >>> 12), 128 ||| ((n >>> 6) &&& 63), 128 ||| (n &&& 63)]
  else
    [240 ||| (n >>> 18), 128 ||| ((n >>> 12) &&& 63),
     128 ||| ((n >>> 6) &&& 63), 128 ||| (n &&& 63)]

/-- UTF-8 encoding of a string (`new TextEncoder().encode(...)`). -/
def utf8Encode (s : List Char) : List Nat :=
  s.foldr (fun c acc => utf8Char c ++ acc) []

/-! ## Base58 codec -/

/-- The source's `ALPHABET` constant. -/
def b58Alphabet : List Char :=
  "123456789ABCDEFGHJKLMNPQRSTUVWXYZabcdefghijkmnopqrstuvwxyz".toList

/-- The big-endian numeric value of a byte list (the accumulation loop of
`encodeBase58`). -/
def bytesToNat (bs : List Nat) : Nat := bs.foldl (fun x b => x * 256 + b) 0

/-- The division loop of `encodeBase58`: big-endian base-58 digits of `x`
mapped through the alphabet, empty at 0; `fuel ≥ x` suffices. -/
def natB58Aux : Nat → Nat → List Char
  | 0, _ => []
  | fuel + 1, x =>
      if x = 0 then [] else natB58Aux fuel (x / 58) ++ [b58Alphabet.getD (x % 58) '1']

/-- The source's `encodeBase58`: base-58 digits of the big-endian value,
preceded by one alphabet-zero character per leading zero byte. -/
def encodeBase58 (buffer : List Nat) : List Char :=
  List.replicate (buffer.takeWhile (fun b => b == 0)).length '1' ++
    natB58Aux (bytesToNat buffer) (bytesToNat buffer)

/-- First index of `c` in a character list (JavaScript `indexOf`, with the
missing case as `none` instead of -1). -/
def charIdxIn : List Char → Char → Option Nat
  | [], _ => none
  | a :: rest, c => if a = c then some 0 else (charIdxIn rest c).map (· + 1)

/-- One step of the accumulation loop of `decodeBase58`: look the character
up in the alphabet and fold it into the base-58 value. -/
def b58Step (acc : Option Nat) (c : Char) : Option Nat :=
  acc.bind (fun x => (charIdxIn b58Alphabet c).map (fun i => x * 58 + i))

/-- The accumulation loop of `decodeBase58`; `none` models the thrown
`Invalid Base58 character` error. -/
def b58ToNat (s : List Char) : Option Nat := s.foldl b58Step (some 0)

/-- The byte-extraction loop of `decodeBase58`: minimal big-endian bytes of
`x`, empty at 0; `fuel ≥ x` suffices. -/
def natBytesAux : Nat → Nat → List Nat
  | 0, _ => []
  | fuel + 1, x => if x = 0 then [] else natBytesAux fuel (x / 256) ++ [x % 256]

/-- The source's `decodeBase58`: parse the base-58 value, emit its minimal
big-endian bytes, and prepend one zero byte per leading alphabet-zero
character; `none` models the thrown decoding error. -/
def decodeBase58 (s : List Char) : Option (List Nat) :=
  (b58ToNat s).map (fun x =>
    List.replicate (s.takeWhile (fun c => c == '1')).length 0 ++ natBytesAux x x)

/-! ## WIF key format -/

/-- The source's `validateWIF`: decode, check length 38, version byte 0x80,
compressed flag 0x01 at index 33, and the 4-byte checksum against
`doubleSha256` of the first 34 bytes.  The `try/catch` that turns a decode
throw into `false` is the `none` branch. -/
def validateWIF (wif : List Char) : Bool :=
  match decodeBase58 wif with
  | none => false
  | some decoded =>
    if decoded.length ≠ 38 then false
    else if decoded.getD 0 0 ≠ 128 then false
    else if decoded.getD 33 0 ≠ 1 then false
    else decoded.drop 34 == (doubleSha256 (decoded.take 34)).take 4

/-- The source's `deriveAddressFromPrivKey`: simulated public key
`sha256(privKey)`, HASH160 simulation `sha256(pubKey)` truncated to 20
bytes, version byte 0x00, 4-byte double-digest checksum, Base58 encoding. -/
def deriveAddressFromPrivKey (privKey : List Nat) : List Char :=
  let pubKey := sha256 privKey
  let hash160 := (sha256 pubKey).take 20
  let payload := 0 :: hash160
  let checksum := (doubleSha256 payload).take 4
  encodeBase58 (payload ++ checksum)

/-- The source's `deriveAddressFromWIF`; `none` models the thrown
`Invalid WIF` error, and `decoded.slice(1, 33)` is `(drop 1).take 32`. -/
def deriveAddressFromWIF (wif : List Char) : Option (List Char) :=
  if validateWIF wif then
    match decodeBase58 wif with
    | none => none
    | some decoded => some (deriveAddressFromPrivKey ((decoded.drop 1).take 32))
  else none

/-- The domain-tag constant appended to the seed in `generateVeritasAddress`. -/
def veritasTag : List Char := "VERITAS_PSI_STOCHASTIC_FLUX_958.312108".toList

/-- The domain-tag constant appended to the seed in `deriveWIF`. -/
def wifTag : List Char := "SEC_KEY_DERIVATION_ACTIVE_UNTRAMMELLED".toList

/-- The source's `generateVeritasAddress`: hash the tagged seed to a secret,
then derive the address. -/
def generateVeritasAddress (seed : List Char) : List Char :=
  deriveAddressFromPrivKey (sha256 (utf8Encode (seed ++ veritasTag)))

/-- The 38-byte WIF blob assembly inside the source's `deriveWIF`: version
0x80, the 32 secret bytes, compressed flag 0x01, then the first 4 bytes of
the double digest as checksum. -/
def buildWIFBytes (privKey : List Nat) : List Nat :=
  let payload := 128 :: privKey ++ [1]
  payload ++ (doubleSha256 payload).take 4

/-- The source's `deriveWIF`: hash the tagged seed to a 32-byte secret,
assemble the blob, Base58-encode. -/
def deriveWIF (seed : List Char) : List Char :=
  encodeBase58 (buildWIFBytes (sha256 (utf8Encode (seed ++ wifTag))))

/-! ## Transaction signing -/

/-- The record returned by `signSequestrationTx`. -/
structure SignedTx where
  txid : List Char
  raw : List Char
  signature : List Char
  deriving DecidableEq

/-- Fixed template segment before the spliced tag. -/
def txSeg1 : List Char := "0200000001".toList

/-- Fixed template segment between the tag and the amount field. -/
def txSeg2 : List Char := "00000000ffffffff01".toList

/-- The protocol template marker preceding the destination field. -/
def txMarker : List Char := "1976a914".toList

/-- Fixed template segment after the destination field. -/
def txSeg3 : List Char := "88ac00000000".toList

/-- The source's `signSequestrationTx`, with the single `Date.now()` read
passed in as `now` (epoch milliseconds) and the floating-point `amount`
embedded as an exact rational; `none` models the thrown
`Invalid WIF key. Signing rejected.` error. -/
def signSequestrationTx (wif : List Char) (amount : ℚ) (destination : List Char)
    (now : Nat) : Option SignedTx :=
  if validateWIF wif then
    match decodeBase58 wif with
    | none => none
    | some decoded =>
      let privKeyBytes := (decoded.drop 1).take 32
      let txData := utf8Encode (ratToString amount ++ ':' :: destination ++ ':' :: natToDecStr now)
      let signature := bytesToHex (hmacSha256 privKeyBytes txData)
      let amountSats := padStartZeros 16 (intToHexStr (Int.floor (amount * 100000000)))
      let rawTx := txSeg1 ++ signature.take 64 ++ txSeg2 ++ amountSats ++
        txMarker ++ destination.take 40 ++ txSeg3
      let txid := bytesToHex (doubleSha256 (utf8Encode rawTx)).reverse
      some ⟨txid, rawTx, signature⟩
  else none

/-- The hex authentication tag of a signing call, as a function of the
decoded key bytes `d` and the arguments (the `signature` binding of the
source, with `decoded.slice(1, 33)` as HMAC key). -/
def sigHexOf (d : List Nat) (amount : ℚ) (destination : List Char) (now : Nat) : List Char :=
  bytesToHex (hmacSha256 ((d.drop 1).take 32)
    (utf8Encode (ratToString amount ++ ':' :: destination ++ ':' :: natToDecStr now)))

/-- The amount field of the raw record: `floor(amount * 1e8)` rendered in
hex and zero-padded to 16 characters (the `amountSats` binding). -/
def amountHex (amount : ℚ) : List Char :=
  padStartZeros 16 (intToHexStr (Int.floor (amount * 100000000)))

/-- The raw transaction record of a signing call (the `rawTx` binding). -/
def rawTxOf (d : List Nat) (amount : ℚ) (destination : List Char) (now : Nat) : List Char :=
  txSeg1 ++ (sigHexOf d amount destination now).take 64 ++ txSeg2 ++
    amountHex amount ++ txMarker ++ destination.take 40 ++ txSeg3

/-- The WIF string of the all-zero 32-byte secret — the fixed reference
string of the concrete key-format scenario. -/
def zeroWIF : List Char := "KwDiBf89QgGbjEhKnhXJuH7LrciVrZi3qYjgd9M7rFU73Nd2Mcv1".toList

/-- A sample 35-character destination identity string for the concrete
signing scenarios. -/
def destSample : List Char := "0123456789abcdef0123456789abcdef012".toList

/-! ## Hash-primitive test vectors -/

/-- SHA-256 maps the empty message to its standard digest (FIPS 180-4 test
vector), checking the embedding of the hash primitive. -/
theorem sha256_nil_vector :
    sha256 [] =
      [0xe3, 0xb0, 0xc4, 0x42, 0x98, 0xfc, 0x1c, 0x14, 0x9a, 0xfb, 0xf4, 0xc8,
       0x99, 0x6f, 0xb9, 0x24, 0x27, 0xae, 0x41, 0xe4, 0x64, 0x9b, 0x93, 0x4c,
       0xa4, 0x95, 0x99, 0x1b, 0x78, 0x52, 0xb8, 0x55] := by decide

/-- SHA-256 maps "abc" to its standard digest (FIPS 180-4 test vector). -/
theorem sha256_abc_vector :
    sha256 [97, 98, 99] =
      [0xba, 0x78, 0x16, 0xbf, 0x8f, 0x01, 0xcf, 0xea, 0x41, 0x41, 0x40, 0xde,
       0x5d, 0xae, 0x22, 0x23, 0xb0, 0x03, 0x61, 0xa3, 0x96, 0x17, 0x7a, 0x9c,
       0xb4, 0x10, 0xff, 0x61, 0xf2, 0x00, 0x15, 0xad] := by decide

/-- HMAC-SHA-256 matches the standard test vector for key "key" and message
"The quick brown fox jumps over the lazy dog". -/
theorem hmacSha256_fox_vector :
    hmacSha256 [107, 101, 121]
      [84, 104, 101, 32, 113, 117, 105, 99, 107, 32, 98, 114, 111, 119, 110,
       32, 102, 111, 120, 32, 106, 117, 109, 112, 115, 32, 111, 118, 101, 114,
       32, 116, 104, 101, 32, 108, 97, 122, 121, 32, 100, 111, 103] =
      [0xf7, 0xbc, 0x83, 0xf4, 0x30, 0x53, 0x84, 0x24, 0xb1, 0x32, 0x98, 0xe6,
       0xaa, 0x6f, 0xb1, 0x43, 0xef, 0x4d, 0x59, 0xa1, 0x49, 0x46, 0x17, 0x59,
       0x97, 0x47, 0x9d, 0xbc, 0x2d, 0x1a, 0x3c, 0xd8] := by decide

/-! ## Base58 round-trip lemmas -/

/-- The encoding division loop computes the big-endian base-58 digits,
mapped through the alphabet, whenever the fuel is at least the value. -/
theorem natB58Aux_eq (fuel x : Nat) (hx : x ≤ fuel) :
    natB58Aux fuel x =
      ((Nat.digits 58 x).reverse).map (fun d => b58Alphabet.getD d '1') := by
  induction fuel generalizing x with
  | zero =>
    cases Nat.le_zero.mp hx
    simp [natB58Aux]
  | succ fuel ih =>
    by_cases h0 : x = 0
    · subst h0; simp [natB58Aux]
    · have hlt : x / 58 < x := Nat.div_lt_self (Nat.pos_of_ne_zero h0) (by norm_num)
      have hle : x / 58 ≤ fuel := Nat.le_of_lt_succ (Nat.lt_of_lt_of_le hlt hx)
      rw [natB58Aux, if_neg h0, ih _ hle,
        Nat.digits_def' (by norm_num : (1 : Nat) < 58) (Nat.pos_of_ne_zero h0)]
      simp

/-- The decoding division loop computes the minimal big-endian base-256
byte rendering whenever the fuel is at least the value. -/
theorem natBytesAux_eq (fuel x : Nat) (hx : x ≤ fuel) :
    natBytesAux fuel x = (Nat.digits 256 x).reverse := by
  induction fuel generalizing x with
  | zero =>
    cases Nat.le_zero.mp hx
    simp [natBytesAux]
  | succ fuel ih =>
    by_cases h0 : x = 0
    · subst h0; simp [natBytesAux]
    · have hlt : x / 256 < x := Nat.div_lt_self (Nat.pos_of_ne_zero h0) (by norm_num)
      have hle : x / 256 ≤ fuel := Nat.le_of_lt_succ (Nat.lt_of_lt_of_le hlt hx)
      rw [natBytesAux, if_neg h0, ih _ hle,
        Nat.digits_def' (by norm_num : (1 : Nat) < 256) (Nat.pos_of_ne_zero h0)]
      simp

/-- The big-endian Horner fold is `Nat.ofDigits` of the reversed list. -/
theorem foldl_horner (B : Nat) (bs : List Nat) (x0 : Nat) :
    bs.foldl (fun x b => x * B + b) x0 =
      x0 * B ^ bs.length + Nat.ofDigits B bs.reverse := by
  induction bs generalizing x0 with
  | nil => simp [Nat.ofDigits]
  | cons b bs ih =>
    rw [List.foldl_cons, ih, List.reverse_cons, Nat.ofDigits_append]
    simp [Nat.ofDigits]
    ring

/-- The numeric value of a byte list is `Nat.ofDigits 256` of its reverse. -/
theorem bytesToNat_eq (bs : List Nat) :
    bytesToNat bs = Nat.ofDigits 256 bs.reverse := by
  simpa using foldl_horner 256 bs 0

/-- Looking an alphabet character back up recovers its digit. -/
theorem charIdx_alpha : ∀ d < 58, charIdxIn b58Alphabet (b58Alphabet.getD d '1') = some d := by
  decide

/-- Only digit 0 maps to the alphabet-zero character. -/
theorem alpha_ne_one : ∀ d < 58, d ≠ 0 → b58Alphabet.getD d '1' ≠ '1' := by
  decide

/-- Parsing a mapped digit list folds the digits into the accumulator. -/
theorem b58fold_digits (ds : List Nat) (hds : ∀ d ∈ ds, d < 58) (x0 : Nat) :
    (ds.map (fun d => b58Alphabet.getD d '1')).foldl b58Step (some x0) =
      some (ds.foldl (fun x d => x * 58 + d) x0) := by
  induction ds generalizing x0 with
  | nil => rfl
  | cons d ds ih =>
    have hd : d < 58 := hds d (List.mem_cons_self d ds)
    have hstep : b58Step (some x0) (b58Alphabet.getD d '1') = some (x0 * 58 + d) := by
      show (charIdxIn b58Alphabet (b58Alphabet.getD d '1')).map (fun i => x0 * 58 + i) = _
      rw [charIdx_alpha d hd]
      rfl
    rw [List.map_cons, List.foldl_cons, List.foldl_cons, hstep]
    exact ih (fun e he => hds e (List.mem_cons_of_mem d he)) _

/-- Parsing a run of alphabet-zero characters keeps the accumulator at 0. -/
theorem b58fold_ones (k : Nat) :
    (List.replicate k '1').foldl b58Step (some 0) = some 0 := by
  induction k with
  | zero => rfl
  | succ k ih => simpa [List.replicate_succ, List.foldl_cons, b58Step] using ih

/-- Taking while over a satisfying run followed by a failing list is the run. -/
theorem takeWhile_replicate_append {α : Type} (p : α → Bool) (a : α) (hp : p a = true)
    (k : Nat) (s : List α) (hs : s.takeWhile p = []) :
    (List.replicate k a ++ s).takeWhile p = List.replicate k a := by
  induction k with
  | zero => simpa using hs
  | succ k ih => simp [List.replicate_succ, List.takeWhile_cons, hp, ih]

/-- The head of `dropWhile` fails the predicate (or the result is empty). -/
theorem dropWhile_head_false {α : Type} (p : α → Bool) (l : List α) :
    l.dropWhile p = [] ∨ ∃ a t, l.dropWhile p = a :: t ∧ p a = false := by
  induction l with
  | nil => exact Or.inl rfl
  | cons a t ih =>
    by_cases h : p a = true
    · simpa [List.dropWhile_cons, h] using ih
    · exact Or.inr ⟨a, t, by simp [List.dropWhile_cons, h], by simpa using h⟩

/-- The leading-zero run of a byte list is a replicate of zeros. -/
theorem takeWhile_zeros (b : List Nat) :
    b.takeWhile (fun x => x == 0) =
      List.replicate (b.takeWhile (fun x => x == 0)).length 0 := by
  apply List.eq_replicate_of_mem
  intro x hx
  have := List.mem_takeWhile_imp hx
  simpa using this

/-- Folding the byte-value accumulator over leading zeros keeps it at 0. -/
theorem bytesFold_zeros (k : Nat) :
    (List.replicate k 0).foldl (fun x b => x * 256 + b) 0 = 0 := by
  induction k with
  | zero => rfl
  | succ k ih => simpa [List.replicate_succ, List.foldl_cons] using ih

/-- Round trip of the Base58 codec on any byte list: decoding the encoding
returns exactly the original bytes. -/
theorem decodeBase58_encodeBase58 (b : List Nat) (hb : ∀ x ∈ b, x < 256) :
    decodeBase58 (encodeBase58 b) = some b := by
  classical
  set k := (b.takeWhile (fun x => x == 0)).length with hk
  set rest := b.dropWhile (fun x => x == 0) with hrest
  have hsplit : List.replicate k 0 ++ rest = b := by
    rw [hk, ← takeWhile_zeros b, hrest]
    exact List.takeWhile_append_dropWhile _ b
  have hX : bytesToNat b = bytesToNat rest := by
    conv_lhs => rw [← hsplit]
    rw [bytesToNat, List.foldl_append, bytesFold_zeros]
    rfl
  set X := bytesToNat rest with hXdef
  have hrest256 : ∀ x ∈ rest, x < 256 := by
    intro x hx
    exact hb x ((List.dropWhile_sublist _).subset hx)
  -- the value of `rest` as `ofDigits` of its reverse, and back
  have hdigits : (Nat.digits 256 X).reverse = rest := by
    rcases dropWhile_head_false (fun x => x == 0) b with h0 | ⟨r, rs, hcons, hr⟩
    · rw [← hrest] at h0
      rw [hXdef, h0]
      simp [bytesToNat, Nat.digits]
    · rw [← hrest] at hcons
      have hrne : r ≠ 0 := by simpa using hr
      rw [hXdef, bytesToNat_eq, Nat.digits_ofDigits 256 (by norm_num) rest.reverse]
      · exact List.reverse_reverse rest
      · intro l hl
        exact hrest256 l (by simpa using hl)
      · intro hne
        have h1 : rest.reverse.getLast? = some r := by
          rw [← List.head?_reverse rest.reverse, List.reverse_reverse, hcons]
          rfl
        have h2 : rest.reverse.getLast hne = r :=
          (List.getLast_eq_iff_getLast?_eq_some hne).mpr h1
        rw [h2]
        exact hrne
  -- the encoded string
  have hds58 : ∀ d ∈ (Nat.digits 58 (bytesToNat b)).reverse, d < 58 := by
    intro d hd
    exact Nat.digits_lt_base (by norm_num) (List.mem_reverse.mp hd)
  have henc : encodeBase58 b =
      List.replicate k '1' ++
        ((Nat.digits 58 (bytesToNat b)).reverse).map (fun d => b58Alphabet.getD d '1') := by
    rw [encodeBase58, ← hk, natB58Aux_eq _ _ le_rfl]
  -- the parsed value
  have hparse : b58ToNat (encodeBase58 b) = some (bytesToNat b) := by
    rw [henc, b58ToNat, List.foldl_append]
    rw [show (List.replicate k '1').foldl b58Step (some 0) = some 0 from b58fold_ones k]
    rw [b58fold_digits _ hds58 0, foldl_horner, List.reverse_reverse]
    simp [Nat.ofDigits_digits]
  -- the leading-one count of the encoded string
  have hleadones : ((encodeBase58 b).takeWhile (fun c => c == '1')).length = k := by
    rw [henc]
    have htail :
        ((((Nat.digits 58 (bytesToNat b)).reverse).map
          (fun d => b58Alphabet.getD d '1')).takeWhile (fun c => c == '1')) = [] := by
      rcases hd0 : (Nat.digits 58 (bytesToNat b)).reverse with _ | ⟨d, ds⟩
      · rfl
      · have hdlt : d < 58 := hds58 d (by rw [hd0]; exact List.mem_cons_self d ds)
        have hdne : d ≠ 0 := by
          have hXne : bytesToNat b ≠ 0 := by
            intro h0
            rw [h0] at hd0
            simp at hd0
          have hnil : Nat.digits 58 (bytesToNat b) ≠ [] := by
            intro hnil
            rw [hnil] at hd0
            simp at hd0
          have hsome : (Nat.digits 58 (bytesToNat b)).getLast? = some d := by
            rw [← List.head?_reverse, hd0]
            rfl
          have hlast : (Nat.digits 58 (bytesToNat b)).getLast hnil = d :=
            (List.getLast_eq_iff_getLast?_eq_some hnil).mpr hsome
          intro hd0eq
          exact Nat.getLast_digit_ne_zero 58 hXne (hlast.trans hd0eq)
        have hfalse : (b58Alphabet.getD d '1' == '1') = false :=
          beq_eq_false_iff_ne.mpr (alpha_ne_one d hdlt hdne)
        rw [List.map_cons, List.takeWhile_cons, hfalse]
        rfl
    rw [takeWhile_replicate_append _ _ (by decide) k _ htail]
    exact List.length_replicate k '1'
  -- assemble
  rw [decodeBase58, hparse, Option.map_some']
  rw [hleadones, natBytesAux_eq _ _ le_rfl, hX, hdigits, hsplit]

/-! ## Digest output shape -/

/-- Rendering with `beBytes` always gives exactly `k` bytes. -/
theorem beBytes_length (k : Nat) : ∀ x, (beBytes k x).length = k := by
  induction k with
  | zero => intro x; rfl
  | succ k ih => intro x; simp [beBytes, ih]

/-- Every entry of `beBytes` is a byte. -/
theorem beBytes_lt (k : Nat) : ∀ x, ∀ y ∈ beBytes k x, y < 256 := by
  induction k with
  | zero => intro x y hy; simp [beBytes] at hy
  | succ k ih =>
    intro x y hy
    rw [beBytes] at hy
    rcases List.mem_append.mp hy with h | h
    · exact ih _ y h
    · have : y = x % 256 := by simpa using h
      rw [this]
      exact Nat.mod_lt _ (by norm_num)

/-- The serialized chaining state has 32 bytes. -/
theorem hash8Bytes_length (st : Hash8) : (hash8Bytes st).length = 32 := by
  simp [hash8Bytes, beBytes_length]

/-- Every entry of the serialized chaining state is a byte. -/
theorem hash8Bytes_lt (st : Hash8) : ∀ y ∈ hash8Bytes st, y < 256 := by
  intro y hy
  rw [hash8Bytes] at hy
  simp only [List.mem_append] at hy
  rcases hy with ((((((h | h) | h) | h) | h) | h) | h) | h <;> exact beBytes_lt 4 _ y h

/-- SHA-256 always produces 32 bytes. -/
theorem sha256_length (msg : List Nat) : (sha256 msg).length = 32 :=
  hash8Bytes_length _

/-- Every entry of a SHA-256 digest is a byte. -/
theorem sha256_lt (msg : List Nat) : ∀ y ∈ sha256 msg, y < 256 :=
  hash8Bytes_lt _

/-! ## WIF construction and validation -/

/-- The WIF blob is the 34-byte payload followed by the 4-byte checksum. -/
theorem buildWIFBytes_eq (priv : List Nat) :
    buildWIFBytes priv =
      (128 :: priv ++ [1]) ++ (doubleSha256 (128 :: priv ++ [1])).take 4 := rfl

/-- The payload of the WIF blob of a 32-byte secret has 34 bytes. -/
theorem wifPayload_length (priv : List Nat) (hl : priv.length = 32) :
    (128 :: priv ++ [1]).length = 34 := by
  simp [hl]

/-- The checksum of the WIF blob has 4 bytes. -/
theorem wifChecksum_length (priv : List Nat) :
    ((doubleSha256 (128 :: priv ++ [1])).take 4).length = 4 := by
  rw [List.length_take, doubleSha256, sha256_length]
  decide

/-- The WIF blob of a 32-byte secret has 38 bytes. -/
theorem buildWIFBytes_length (priv : List Nat) (hl : priv.length = 32) :
    (buildWIFBytes priv).length = 38 := by
  rw [buildWIFBytes_eq, List.length_append, wifPayload_length priv hl,
    wifChecksum_length]

/-- Every entry of the WIF blob of a byte-valued secret is a byte. -/
theorem buildWIFBytes_lt (priv : List Nat) (hp : ∀ y ∈ priv, y < 256) :
    ∀ y ∈ buildWIFBytes priv, y < 256 := by
  intro y hy
  rw [buildWIFBytes_eq] at hy
  rcases List.mem_append.mp hy with h | h
  · rcases List.mem_cons.mp h with h0 | h1
    · rw [h0]; norm_num
    · rcases List.mem_append.mp h1 with h2 | h3
      · exact hp y h2
      · have : y = 1 := by simpa using h3
        rw [this]; norm_num
  · exact sha256_lt _ y (List.take_subset 4 _ h)

/-- Version byte of the WIF blob. -/
theorem buildWIFBytes_getD0 (priv : List Nat) :
    (buildWIFBytes priv).getD 0 0 = 128 := by
  rw [buildWIFBytes_eq]
  rfl

/-- Compressed flag of the WIF blob of a 32-byte secret. -/
theorem buildWIFBytes_getD33 (priv : List Nat) (hl : priv.length = 32) :
    (buildWIFBytes priv).getD 33 0 = 1 := by
  rw [buildWIFBytes_eq, List.getD_append _ _ _ 33
    (by rw [wifPayload_length priv hl]; norm_num)]
  show (priv ++ [1]).getD 32 0 = 1
  rw [List.getD_append_right _ _ _ 32 (by rw [hl])]
  rw [hl]
  rfl

/-- The first 34 bytes of the WIF blob are the payload. -/
theorem buildWIFBytes_take34 (priv : List Nat) (hl : priv.length = 32) :
    (buildWIFBytes priv).take 34 = 128 :: priv ++ [1] := by
  rw [buildWIFBytes_eq]
  exact List.take_left' (wifPayload_length priv hl)

/-- The last 4 bytes of the WIF blob are the checksum. -/
theorem buildWIFBytes_drop34 (priv : List Nat) (hl : priv.length = 32) :
    (buildWIFBytes priv).drop 34 = (doubleSha256 (128 :: priv ++ [1])).take 4 := by
  rw [buildWIFBytes_eq]
  exact List.drop_left' (wifPayload_length priv hl)

/-- Reduction of `validateWIF` when decoding fails. -/
theorem validateWIF_none (wif : List Char) (hdec : decodeBase58 wif = none) :
    validateWIF wif = false := by
  rw [validateWIF, hdec]

/-- Reduction of `validateWIF` when decoding succeeds. -/
theorem validateWIF_some (wif : List Char) (d : List Nat)
    (hdec : decodeBase58 wif = some d) :
    validateWIF wif =
      (if d.length ≠ 38 then false
       else if d.getD 0 0 ≠ 128 then false
       else if d.getD 33 0 ≠ 1 then false
       else d.drop 34 == (doubleSha256 (d.take 34)).take 4) := by
  rw [validateWIF, hdec]

/-- The built WIF string of any 32-byte secret passes validation. -/
theorem validateWIF_build (priv : List Nat) (hl : priv.length = 32)
    (hp : ∀ y ∈ priv, y < 256) :
    validateWIF (encodeBase58 (buildWIFBytes priv)) = true := by
  have hdec : decodeBase58 (encodeBase58 (buildWIFBytes priv)) = some (buildWIFBytes priv) :=
    decodeBase58_encodeBase58 _ (buildWIFBytes_lt priv hp)
  have hcheck : (buildWIFBytes priv).drop 34 =
      (doubleSha256 ((buildWIFBytes priv).take 34)).take 4 := by
    rw [buildWIFBytes_take34 priv hl, buildWIFBytes_drop34 priv hl]
  rw [validateWIF_some _ _ hdec,
    if_neg (not_not_intro (buildWIFBytes_length priv hl)),
    if_neg (not_not_intro (buildWIFBytes_getD0 priv)),
    if_neg (not_not_intro (buildWIFBytes_getD33 priv hl)),
    hcheck]
  exact beq_self_eq_true _

/-- Validation accepts exactly the strings that decode to 38 bytes with
version 0x80, flag 0x01, and a matching double-digest checksum. -/
theorem validateWIF_iff (wif : List Char) :
    validateWIF wif = true ↔ ∃ d, decodeBase58 wif = some d ∧ d.length = 38 ∧
      d.getD 0 0 = 128 ∧ d.getD 33 0 = 1 ∧
      d.drop 34 = (doubleSha256 (d.take 34)).take 4 := by
  constructor
  · intro h
    rcases hdec : decodeBase58 wif with _ | d
    · rw [validateWIF_none wif hdec] at h
      cases h
    · refine ⟨d, rfl, ?_⟩
      rw [validateWIF_some wif d hdec] at h
      by_cases h1 : d.length ≠ 38
      · rw [if_pos h1] at h; cases h
      · rw [if_neg h1] at h
        by_cases h2 : d.getD 0 0 ≠ 128
        · rw [if_pos h2] at h; cases h
        · rw [if_neg h2] at h
          by_cases h3 : d.getD 33 0 ≠ 1
          · rw [if_pos h3] at h; cases h
          · rw [if_neg h3] at h
            exact ⟨not_not.mp h1, not_not.mp h2, not_not.mp h3, by simpa using h⟩
  · rintro ⟨d, hdec, h1, h2, h3, h4⟩
    rw [validateWIF_some wif d hdec, if_neg (not_not_intro h1),
      if_neg (not_not_intro h2), if_neg (not_not_intro h3), h4]
    exact beq_self_eq_true _

/-- A string that validates necessarily decodes. -/
theorem validateWIF_decodes (wif : List Char) (h : validateWIF wif = true) :
    ∃ d, decodeBase58 wif = some d := by
  rcases (validateWIF_iff wif).mp h with ⟨d, hdec, _⟩
  exact ⟨d, hdec⟩

/-! ## Reduction of the derived operations -/

/-- Reduction of `deriveAddressFromWIF` on a validating, decoding string. -/
theorem deriveAddressFromWIF_valid (wif : List Char) (d : List Nat)
    (hv : validateWIF wif = true) (hdec : decodeBase58 wif = some d) :
    deriveAddressFromWIF wif = some (deriveAddressFromPrivKey ((d.drop 1).take 32)) := by
  rw [deriveAddressFromWIF, if_pos hv, hdec]

/-- Reduction of `deriveAddressFromWIF` on a non-validating string. -/
theorem deriveAddressFromWIF_invalid (wif : List Char) (hv : validateWIF wif = false) :
    deriveAddressFromWIF wif = none := by
  rw [deriveAddressFromWIF, hv]
  rfl

/-- Reduction of `signSequestrationTx` on a validating, decoding key string: the
record built from the decoded bytes. -/
theorem sign_valid (wif : List Char) (amount : ℚ) (dest : List Char) (now : Nat)
    (d : List Nat) (hv : validateWIF wif = true) (hdec : decodeBase58 wif = some d) :
    signSequestrationTx wif amount dest now =
      some ⟨bytesToHex (doubleSha256 (utf8Encode (rawTxOf d amount dest now))).reverse,
            rawTxOf d amount dest now, sigHexOf d amount dest now⟩ := by
  rw [signSequestrationTx, if_pos hv, hdec]
  rfl

/-- Reduction of `signSequestrationTx` on a non-validating key string. -/
theorem sign_invalid (wif : List Char) (amount : ℚ) (dest : List Char) (now : Nat)
    (hv : validateWIF wif = false) :
    signSequestrationTx wif amount dest now = none := by
  rw [signSequestrationTx, hv]
  rfl

/-- Hex rendering doubles the byte count. -/
theorem bytesToHex_length (bs : List Nat) : (bytesToHex bs).length = 2 * bs.length := by
  induction bs with
  | nil => rfl
  | cons b bs ih =>
    show (byteToHex b ++ bytesToHex bs).length = 2 * (bs.length + 1)
    rw [List.length_append, ih]
    simp [byteToHex]
    ring

/-- The authentication tag has 64 hex characters. -/
theorem sigHexOf_length (d : List Nat) (amount : ℚ) (dest : List Char) (now : Nat) :
    (sigHexOf d amount dest now).length = 64 := by
  rw [sigHexOf, bytesToHex_length, hmacSha256, sha256_length]

/-- Dropping the version byte and taking 32 bytes from the WIF blob of a
32-byte secret recovers the secret. -/
theorem buildWIFBytes_extract (priv : List Nat) (hl : priv.length = 32) :
    ((buildWIFBytes priv).drop 1).take 32 = priv := by
  show ((priv ++ [1]) ++ (doubleSha256 (128 :: priv ++ [1])).take 4).take 32 = priv
  rw [List.append_assoc]
  exact List.take_left' hl

/-! ## Concrete sanity checks of the embedding -/

/-- The all-zero secret's WIF blob encodes to the fixed reference string. -/
theorem zeroWIF_reference :
    encodeBase58 (buildWIFBytes (List.replicate 32 0)) = zeroWIF := by decide

/-- The reference string with its last character altered fails validation
(checksum sensitivity scenario). -/
theorem zeroWIF_altered_invalid :
    validateWIF ("KwDiBf89QgGbjEhKnhXJuH7LrciVrZi3qYjgd9M7rFU73Nd2Mcv2".toList) = false := by
  decide

/-- The amount field for 1.5 units is `floor(1.5e8)` as 16 zero-padded
lowercase hex digits. -/
theorem amountHex_three_halves :
    amountHex (3 / 2) = "0000000008f0d180".toList := by
  rw [amountHex, show (Int.floor ((3 : ℚ) / 2 * 100000000)) = 150000000 by norm_num]
  decide

/-! ## The claims -/

/-- C1, counterexample: the seed-to-key and the seed-to-identity derivations
do not use one shared fixed domain tag, so at the empty seed the identity
derived from the derived key string is not the directly derived identity. -/
theorem claim_C1_counterexample :
    deriveAddressFromWIF (deriveWIF []) ≠ some (generateVeritasAddress []) := by
  decide

/-- C1, amended: `deriveWIF` appends `wifTag` to the seed while
`generateVeritasAddress` appends the different constant `veritasTag`, each
hashing the tagged seed into its own 32-byte secret; the identity derived
from the key string derived from a seed is exactly the identity of that
key's own secret (one key blob maps to exactly one identity), though in
general not the seed-to-identity derivation's output. -/
theorem claim_C1_amended (seed : List Char) :
    deriveAddressFromWIF (deriveWIF seed) =
      some (deriveAddressFromPrivKey (sha256 (utf8Encode (seed ++ wifTag)))) ∧
    generateVeritasAddress seed =
      deriveAddressFromPrivKey (sha256 (utf8Encode (seed ++ veritasTag))) := by
  refine ⟨?_, rfl⟩
  have hl : (sha256 (utf8Encode (seed ++ wifTag))).length = 32 := sha256_length _
  have hp : ∀ y ∈ sha256 (utf8Encode (seed ++ wifTag)), y < 256 := sha256_lt _
  have hv : validateWIF (deriveWIF seed) = true := by
    rw [deriveWIF]
    exact validateWIF_build _ hl hp
  have hdec : decodeBase58 (deriveWIF seed) =
      some (buildWIFBytes (sha256 (utf8Encode (seed ++ wifTag)))) := by
    rw [deriveWIF]
    exact decodeBase58_encodeBase58 _ (buildWIFBytes_lt _ hp)
  rw [deriveAddressFromWIF_valid _ _ hv hdec, buildWIFBytes_extract _ hl]

/-- C2: for every byte sequence, decoding the Base58 encoding returns
exactly the original sequence. -/
theorem claim_C2_round_trip (b : List Nat) (hb : ∀ x ∈ b, x < 256) :
    decodeBase58 (encodeBase58 b) = some b :=
  decodeBase58_encodeBase58 b hb

/-- Witness for C2 at a byte list with a leading-zero run. -/
theorem claim_C2_witness :
    (∀ x ∈ ([0, 0, 7, 255] : List Nat), x < 256) ∧
      decodeBase58 (encodeBase58 [0, 0, 7, 255]) = some [0, 0, 7, 255] :=
  ⟨by decide, claim_C2_round_trip [0, 0, 7, 255] (by decide)⟩

/-- C3: `validateWIF` returns a boolean for every input (never throws), and
accepts exactly the strings that Base58-decode to 38 bytes with version byte
0x80, compressed flag 0x01 at index 33, and stored checksum equal to the
first 4 bytes of the double digest of the first 34 bytes. -/
theorem claim_C3_validation_boundary (wif : List Char) :
    validateWIF wif = true ↔ ∃ d, decodeBase58 wif = some d ∧ d.length = 38 ∧
      d.getD 0 0 = 128 ∧ d.getD 33 0 = 1 ∧
      d.drop 34 = (doubleSha256 (d.take 34)).take 4 :=
  validateWIF_iff wif

/-- Witness for C3 at the reference key string. -/
theorem claim_C3_witness :
    validateWIF zeroWIF = true ↔ ∃ d, decodeBase58 zeroWIF = some d ∧ d.length = 38 ∧
      d.getD 0 0 = 128 ∧ d.getD 33 0 = 1 ∧
      d.drop 34 = (doubleSha256 (d.take 34)).take 4 :=
  claim_C3_validation_boundary zeroWIF

/-- C4: building the key from any 32-byte secret — version, secret, flag,
4-byte double-digest checksum, Base58 — yields a string `validateWIF`
accepts. -/
theorem claim_C4_build_validates (secret : List Nat) (hl : secret.length = 32)
    (hb : ∀ y ∈ secret, y < 256) :
    validateWIF (encodeBase58 (buildWIFBytes secret)) = true :=
  validateWIF_build secret hl hb

/-- Witness for C4 at the all-zero 32-byte secret. -/
theorem claim_C4_witness :
    (List.replicate 32 (0 : Nat)).length = 32 ∧
      (∀ y ∈ List.replicate 32 (0 : Nat), y < 256) ∧
      validateWIF (encodeBase58 (buildWIFBytes (List.replicate 32 0))) = true :=
  ⟨by decide, by decide,
    claim_C4_build_validates (List.replicate 32 0) (by decide) (by decide)⟩

/-- C5: the identity derivation and the signer fail (model: return `none`
for the thrown `InvalidKeyError`) exactly when `validateWIF` rejects the key
string; on accepted strings both return a fully-formed value. -/
theorem claim_C5_error_boundary (wif : List Char) (amount : ℚ) (dest : List Char)
    (now : Nat) :
    (deriveAddressFromWIF wif = none ↔ validateWIF wif = false) ∧
      (signSequestrationTx wif amount dest now = none ↔ validateWIF wif = false) := by
  cases hv : validateWIF wif with
  | false =>
    rw [deriveAddressFromWIF_invalid wif hv, sign_invalid wif amount dest now hv]
    simp
  | true =>
    obtain ⟨d, hdec⟩ := validateWIF_decodes wif hv
    rw [deriveAddressFromWIF_valid wif d hv hdec,
      sign_valid wif amount dest now d hv hdec]
    simp

/-- Witness for C5 at the reference key string. -/
theorem claim_C5_witness :
    (deriveAddressFromWIF zeroWIF = none ↔ validateWIF zeroWIF = false) ∧
      (signSequestrationTx zeroWIF 1 destSample 0 = none ↔
        validateWIF zeroWIF = false) :=
  claim_C5_error_boundary zeroWIF 1 destSample 0

/-- C6: on a valid key the raw record is the fixed template with exactly
three splices — the first 64 hex characters of the authentication tag, the
amount as `floor(amount * 1e8)` rendered in hex and zero-padded to 16
characters, and the first 40 characters of the destination — with the
literal `1976a914` marker immediately before the destination field. -/
theorem claim_C6_raw_template (wif : List Char) (amount : ℚ) (dest : List Char)
    (now : Nat) (hv : validateWIF wif = true) :
    ∃ tx, signSequestrationTx wif amount dest now = some tx ∧
      tx.raw = txSeg1 ++ tx.signature.take 64 ++ txSeg2 ++
        padStartZeros 16 (intToHexStr (Int.floor (amount * 100000000))) ++
        txMarker ++ dest.take 40 ++ txSeg3 ∧
      txMarker = "1976a914".toList := by
  obtain ⟨d, hdec⟩ := validateWIF_decodes wif hv
  exact ⟨_, sign_valid wif amount dest now d hv hdec, rfl, rfl⟩

/-- Witness for C6 at the reference key, amount 1.5, and the sample
destination. -/
theorem claim_C6_witness :
    validateWIF zeroWIF = true ∧
      ∃ tx, signSequestrationTx zeroWIF (3 / 2) destSample 1700000000000 = some tx ∧
        tx.raw = txSeg1 ++ tx.signature.take 64 ++ txSeg2 ++
          padStartZeros 16 (intToHexStr (Int.floor ((3 / 2 : ℚ) * 100000000))) ++
          txMarker ++ destSample.take 40 ++ txSeg3 ∧
        txMarker = "1976a914".toList :=
  ⟨by decide, claim_C6_raw_template zeroWIF (3 / 2) destSample 1700000000000 (by decide)⟩

/-- C7: every record the signer returns has as identifier the lowercase hex
of the byte-reversed double digest of the UTF-8 bytes of its raw record. -/
theorem claim_C7_txid (wif : List Char) (amount : ℚ) (dest : List Char)
    (now : Nat) (hv : validateWIF wif = true) :
    ∃ tx, signSequestrationTx wif amount dest now = some tx ∧
      tx.txid = bytesToHex (doubleSha256 (utf8Encode tx.raw)).reverse := by
  obtain ⟨d, hdec⟩ := validateWIF_decodes wif hv
  exact ⟨_, sign_valid wif amount dest now d hv hdec, rfl⟩

/-- Witness for C7 at the reference key. -/
theorem claim_C7_witness :
    validateWIF zeroWIF = true ∧
      ∃ tx, signSequestrationTx zeroWIF 2 destSample 1700000000001 = some tx ∧
        tx.txid = bytesToHex (doubleSha256 (utf8Encode tx.raw)).reverse :=
  ⟨by decide, claim_C7_txid zeroWIF 2 destSample 1700000000001 (by decide)⟩

/-- C10: the signer raises only for key validation: on a valid key it
returns a record for every amount and destination (including empty, short,
or non-hex destinations), splicing the first `min 40 length` characters of
the destination verbatim, so the raw record's length varies with the
destination. -/
theorem claim_C10_destination_total (wif : List Char) (amount : ℚ) (dest : List Char)
    (now : Nat) (hv : validateWIF wif = true) :
    ∃ tx, signSequestrationTx wif amount dest now = some tx ∧
      tx.raw = (txSeg1 ++ tx.signature.take 64 ++ txSeg2 ++ amountHex amount ++ txMarker)
        ++ dest.take 40 ++ txSeg3 ∧
      (dest.take 40).length = min 40 dest.length ∧
      tx.raw.length = 112 + (amountHex amount).length + min 40 dest.length := by
  obtain ⟨d, hdec⟩ := validateWIF_decodes wif hv
  refine ⟨_, sign_valid wif amount dest now d hv hdec, ?_, by simp, ?_⟩
  · show rawTxOf d amount dest now = _
    rw [rawTxOf]
  · show (rawTxOf d amount dest now).length = _
    have h1 : txSeg1.length = 10 := by decide
    have h2 : txSeg2.length = 18 := by decide
    have h3 : txMarker.length = 8 := by decide
    have h4 : txSeg3.length = 12 := by decide
    have h5 : ((sigHexOf d amount dest now).take 64).length = 64 := by
      rw [List.length_take, sigHexOf_length]
      decide
    rw [rawTxOf]
    simp only [List.length_append, List.length_take, h1, h2, h3, h4, h5]
    omega

/-- Witness for C10 at the reference key with an empty destination. -/
theorem claim_C10_witness :
    validateWIF zeroWIF = true ∧
      ∃ tx, signSequestrationTx zeroWIF 1 [] 1700000000002 = some tx ∧
        tx.raw = (txSeg1 ++ tx.signature.take 64 ++ txSeg2 ++ amountHex 1 ++ txMarker)
          ++ List.take 40 [] ++ txSeg3 ∧
        (List.take 40 ([] : List Char)).length = min 40 (List.length ([] : List Char)) ∧
        tx.raw.length = 112 + (amountHex 1).length + min 40 (List.length ([] : List Char)) :=
  ⟨by decide, claim_C10_destination_total zeroWIF 1 [] 1700000000002 (by decide)⟩

/-- C8: the identity of a 32-byte secret is the Base58 encoding of 25 bytes:
version 0x00, the first 20 bytes of the double digest of the secret, and a
4-byte checksum that is the first 4 bytes of the double digest of the
preceding 21 bytes. -/
theorem claim_C8_identity_layout (secret : List Nat) (hl : secret.length = 32) :
    deriveAddressFromPrivKey secret =
      encodeBase58 ((0 :: (doubleSha256 secret).take 20) ++
        (doubleSha256 (0 :: (doubleSha256 secret).take 20)).take 4) ∧
    ((0 :: (doubleSha256 secret).take 20) ++
        (doubleSha256 (0 :: (doubleSha256 secret).take 20)).take 4).length = 25 := by
  refine ⟨rfl, ?_⟩
  have h20 : ((doubleSha256 secret).take 20).length = 20 := by
    rw [List.length_take, doubleSha256, sha256_length]
    decide
  have h4 : ((doubleSha256 (0 :: (doubleSha256 secret).take 20)).take 4).length = 4 := by
    rw [List.length_take, doubleSha256, sha256_length]
    decide
  rw [List.length_append, List.length_cons, h20, h4]

/-- Witness for C8 at the all-zero 32-byte secret. -/
theorem claim_C8_witness :
    (List.replicate 32 (0 : Nat)).length = 32 ∧
      (deriveAddressFromPrivKey (List.replicate 32 0) =
        encodeBase58 ((0 :: (doubleSha256 (List.replicate 32 0)).take 20) ++
          (doubleSha256 (0 :: (doubleSha256 (List.replicate 32 0)).take 20)).take 4) ∧
      ((0 :: (doubleSha256 (List.replicate 32 0)).take 20) ++
          (doubleSha256 (0 :: (doubleSha256 (List.replicate 32 0)).take 20)).take 4).length = 25) :=
  ⟨by decide, claim_C8_identity_layout (List.replicate 32 0) (by decide)⟩

end Veritas
